import Mathlib

/-!
Verification of the `cf-proxy` repository: a local development proxy with a
Destination Binder (writes a `.env` configuration artifact) and an
Authenticated Forwarder (rewrites inbound requests, maintains a cached OAuth
token, and forwards upstream).  The definitions below are shallow embeddings
of the JavaScript source; side effects (file system, network, the external
`@sap/xssec` security-context library, `dotenv`) are threaded explicitly or
supplied as oracle outcomes.
-/

/-! ## JavaScript value semantics helpers -/

/-- JS truthiness of a possibly-absent string (`undefined`/`null` and the
empty string are falsy; every other string is truthy). -/
def jsTruthy : Option String → Bool
  | none => false
  | some s => s ≠ ""

/-- JS template interpolation of a possibly-null string value
(template literal renders `null` as the text "null"). -/
def jsStr : Option String → String
  | none => "null"
  | some s => s

/-! ## Forwarder: token introspection and fetch (src/unnamed/part_004) -/

/-- Outcome of the external `createSecurityContext` callback for one call:
it either succeeds, fails with the specific `TokenExpiredError`, or fails
with some other error. -/
inductive SecCtxOutcome where
  | success : SecCtxOutcome
  | tokenExpiredError : SecCtxOutcome
  | otherError (msg : String) : SecCtxOutcome
deriving DecidableEq, Repr

/-- `isTokenExpired(token)` from `src/unnamed/part_004` lines 37-57.
`if (!token) return Promise.resolve(true)` — a JS-falsy token (null or the
empty string) resolves `true` without consulting the security context.
Otherwise the result of `createSecurityContext` (supplied as an oracle
outcome for this call) decides: success resolves `false`, a
`TokenExpiredError` resolves `true`, any other error rejects. -/
def isTokenExpired (token : Option String) (ctx : SecCtxOutcome) : Except String Bool :=
  if ¬ jsTruthy token then .ok true
  else
    match ctx with
    | .success => .ok false
    | .tokenExpiredError => .ok true
    | .otherError msg => .error msg

/-- Environment (external-call outcomes) for handling one request:
the `createSecurityContext` outcome that `isTokenExpired` would observe and
the result of `requestClientCredentialsToken` should `fetchToken` be called. -/
structure ReqEnv where
  secCtx : SecCtxOutcome
  fetchResult : Except String String

/-- An inbound HTTP request as seen by the `createServer` handler:
the `Host` header, the parsed URL's pathname and query string, and the
relevant inbound headers. -/
structure Request where
  host : String
  pathname : String
  search : String
  authorization : Option String
  xApprouterAuthorization : Option String
deriving DecidableEq

/-- `req.headers.host.split(".")[0]` — the first dot-separated label of the
inbound Host header (the characters before the first '.'). -/
def firstLabel (host : String) : String :=
  String.mk (host.data.takeWhile (fun c => c ≠ '.'))

/-- Startup of `run(port, log)` (`src/unnamed/part_004` lines 97-102, 142):
`const target = process.env.CFDP_TARGET; if (!target) throw ...` happens
before `createServer`/`listen`; a JS-falsy target (unset variable or empty
string) is a fatal error, otherwise the listener opens on `port` with that
target. -/
def runStartup (env : String → Option String) (port : Nat) :
    Except String (String × Nat) :=
  let target := env "CFDP_TARGET"
  if ¬ jsTruthy target then
    .error "Variable CFDP_TARGET not found. Run cfdp bind first"
  else
    .ok (jsStr target, port)

/-! ## Node `path.posix` model (used by the request handler's path rewrite)

`run` rewrites `url.pathname = join("/proxy", destination, url.pathname)`
where `join` is Node's `path.posix.join`: non-empty arguments are joined
with "/" and the result is normalized (`path.posix.normalize`), which
splits on "/", removes empty and "." segments, resolves "..", and restores
a leading "/" (absolute input) and a trailing "/" (input ended in "/"). -/

/-- Character loop extracting the segments Node's `normalizeString`
iterates over: `cur` accumulates the current segment reversed; a slash
emits the accumulated segment (empty segments from "//" are skipped). -/
def segsOfAux : List Char → List Char → List (List Char)
  | [], cur => if cur = [] then [] else [cur.reverse]
  | c :: cs, cur =>
    if c = '/' then
      (if cur = [] then segsOfAux cs [] else cur.reverse :: segsOfAux cs [])
    else segsOfAux cs (c :: cur)

/-- Maximal non-empty runs of non-slash characters (the segments Node's
`normalizeString` iterates over; empty segments from "//" are skipped). -/
def segsOf (cs : List Char) : List (List Char) := segsOfAux cs []

/-- The "." / ".." resolution of Node's `normalizeString`, over the list of
segments with an accumulator of already-kept segments (stored reversed).
"." is dropped; ".." pops the last kept segment, except that above the root
it is kept for relative paths (`allowAboveRoot`) and dropped for absolute
ones. -/
def collapseDots (allowAboveRoot : Bool) : List (List Char) → List (List Char) → List (List Char)
  | acc, [] => acc.reverse
  | acc, seg :: rest =>
    if seg = [] ∨ seg = ['.'] then collapseDots allowAboveRoot acc rest
    else if seg = ['.', '.'] then
      match acc with
      | [] =>
        if allowAboveRoot then collapseDots allowAboveRoot [['.', '.']] rest
        else collapseDots allowAboveRoot [] rest
      | a :: acc2 =>
        if a = ['.', '.'] then collapseDots allowAboveRoot (seg :: a :: acc2) rest
        else collapseDots allowAboveRoot acc2 rest
    else collapseDots allowAboveRoot (seg :: acc) rest

/-- Join segments with "/" separators (Node builds the normalized path this
way). -/
def joinSegs : List (List Char) → List Char
  | [] => []
  | [s] => s
  | s :: rest => s ++ '/' :: joinSegs rest

/-- Node `path.posix.normalize` on a non-empty path, at character level. -/
def normalizeChars (cs : List Char) : List Char :=
  let isAbs := cs.head? = some '/'
  let trailing := cs.getLast? = some '/'
  let segs := collapseDots (!isAbs) [] (segsOf cs)
  if segs.isEmpty then
    if isAbs then ['/'] else if trailing then ['.', '/'] else ['.']
  else
    (if isAbs then '/' :: joinSegs segs else joinSegs segs) ++
      (if trailing then ['/'] else [])

/-- Node `path.posix.normalize`. -/
def posixNormalize (s : String) : String :=
  if s = "" then "." else String.mk (normalizeChars s.data)

/-- Node `path.posix.join` restricted to the three arguments used in the
source: empty arguments are dropped, the rest are concatenated with "/"
between them, and the result is normalized ("." if nothing remains). -/
def posixJoin3 (a b c : String) : String :=
  let parts := [a, b, c].filter (fun s => s ≠ "")
  match parts with
  | [] => "."
  | p :: ps => posixNormalize (ps.foldl (fun acc s => acc ++ "/" ++ s) p)

/-! ## Forwarder: per-request handler (src/unnamed/part_004 lines 107-133) -/

/-- What the handler hands to `proxy.web`: the rewritten URL parts and the
outgoing headers, together with the destination label that was used. -/
structure Forwarded where
  destination : String
  pathname : String
  search : String
  authorization : String
  xApprouterAuthorization : Option String
deriving DecidableEq

/-- Result of a successful handler run: the forwarded request, the token
cache value after the request, and whether a fetch was performed. -/
structure HandleOut where
  forwarded : Forwarded
  token : Option String
  fetched : Bool

/-- The `createServer` request handler body: extract the destination from
the Host header, rewrite the pathname with `join("/proxy", destination,
pathname)` (query preserved), consult `isTokenExpired` on the shared cached
token, fetch a new token when expired, relabel a truthy inbound
`Authorization` header to `x-approuter-authorization`, and overwrite
`Authorization` with `Bearer <token>`.  A rejection of the introspection or
fetch promise aborts the handler (`Except.error`). -/
def handleRequest (token0 : Option String) (req : Request) (env : ReqEnv) :
    Except String HandleOut :=
  let destination := firstLabel req.host
  let newPath := posixJoin3 "/proxy" destination req.pathname
  match isTokenExpired token0 env.secCtx with
  | .error e => .error e
  | .ok expired =>
    match (if expired then env.fetchResult.map some else .ok token0) with
    | .error e => .error e
    | .ok token1 =>
      .ok { forwarded :=
              { destination := destination
                pathname := newPath
                search := req.search
                authorization := "Bearer " ++ jsStr token1
                xApprouterAuthorization :=
                  if jsTruthy req.authorization then req.authorization
                  else req.xApprouterAuthorization }
            token := token1
            fetched := expired }

/-- Log entry for one handled request: the shared token before, the handler
outcome, and the shared token after (unchanged when the handler aborted). -/
structure StepLog where
  tokenBefore : Option String
  result : Except String HandleOut
  tokenAfter : Option String

/-- Sequential view of the server loop, used to state per-request
properties: requests are handled one at a time, each against the shared
cached token left by its predecessors, and a handler abort leaves the
cached token unchanged.  That the loop continues past an aborted request
is a modelling device only, not a fact of the source: the source's async
handler lets the rejection escape uncaught (see `c7_token_error_uncaught`),
so only the per-step behaviour of the requests actually handled is read
off this model. -/
def processRequests : Option String → List (Request × ReqEnv) → List StepLog
  | _, [] => []
  | tok, (r, e) :: rest =>
    let res := handleRequest tok r e
    let tok2 := match res with
      | .ok h => h.token
      | .error _ => tok
    { tokenBefore := tok, result := res, tokenAfter := tok2 } :: processRequests tok2 rest

/-! ## Forwarder: loadFiles (src/unnamed/part_004 lines 22-29)

`loadFiles` lists the directory, keeps the names matching
`/^(\.\d+)?\.env$/`, and runs `dotenv`'s `config({path})` on each in list
order.  `dotenv.config` parses the file and sets each parsed key into
`process.env` only if that key is not already set (documented dotenv
behaviour: existing environment variables are never overwritten). -/

/-- A decimal digit, the JS regex class `\d`. -/
def isDigitChar (c : Char) : Bool := '0' ≤ c && c ≤ '9'

/-- The test `/^(\.\d+)?\.env$/.test(file)`: either exactly ".env", or a
".", one or more digits, and ".env".  (The digit run is maximal; the regex
cannot backtrack into it because the following character must be '.'.) -/
def matchesEnvPattern : List Char → Bool
  | [] => false
  | c :: rest =>
    decide (c = '.') &&
      (decide (rest = ['e', 'n', 'v']) ||
        (decide (rest.takeWhile isDigitChar ≠ []) &&
          decide (rest.drop (rest.takeWhile isDigitChar).length = ['.', 'e', 'n', 'v'])))

/-- File-name filter used by `loadFiles`. -/
def isEnvFileName (file : String) : Bool := matchesEnvPattern file.data

/-- First value bound to key `k` in an association list (JS object /
`process.env` lookup; keys are unique in `process.env`, and our updates
only ever append fresh keys). -/
def lookupKV (kvs : List (String × String)) (k : String) : Option String :=
  match kvs with
  | [] => none
  | (k2, v) :: rest => if k2 = k then some v else lookupKV rest k

/-- `dotenv.config` applied to one parsed file: each parsed binding is
added only when its key is not yet present in the environment. -/
def dotenvConfig (env : List (String × String)) (kvs : List (String × String)) :
    List (String × String) :=
  kvs.foldl (fun e kv => if (lookupKV e kv.1).isSome then e else e ++ [kv]) env

/-- `loadFiles`: filter directory entries with the env-file pattern and load
each matching file (its parsed bindings given by `parse`) in order. -/
def loadFiles (files : List String) (parse : String → List (String × String))
    (env : List (String × String)) : List (String × String) :=
  (files.filter isEnvFileName).foldl (fun e f => dotenvConfig e (parse f)) env

/-! ## Binder: route parsing and target rewrite (src/unnamed/part_003) -/

/-- The JS regex class `[\w-]`: ASCII letters, digits, underscore, hyphen. -/
def isWordDashChar (c : Char) : Bool :=
  c.isAlpha || c.isDigit || c = '_' || c = '-'

/-- One attempt of `/\.cfapps\.([\w-]+)\.hana\.ondemand\.com/` anchored at
the current position: the literal ".cfapps.", a maximal non-empty `[\w-]`
run, then the literal ".hana.ondemand.com".  (No shorter run can match:
after a shorter prefix of the run the next input character is still a
`[\w-]` character, never the required '.'.) -/
def tryRegionAt (cs : List Char) : Option (List Char) :=
  if cs.take 8 = ".cfapps.".data then
    let t := cs.drop 8
    let run := t.takeWhile isWordDashChar
    if run ≠ [] && (t.drop run.length).take 18 = ".hana.ondemand.com".data then
      some run
    else none
  else none

/-- `route.match(...)`: try the pattern at each position, leftmost match
wins; returns the captured region. -/
def findRegion : List Char → Option (List Char)
  | [] => none
  | c :: rest =>
    match tryRegionAt (c :: rest) with
    | some r => some r
    | none => findRegion rest

/-- `getCloudFoundryURL(route, service)` (src/unnamed/part_003 lines
18-27): parse the region out of the route or throw
`Invalid route format: <route>`. -/
def getCloudFoundryURL (route service : String) : Except String String :=
  match findRegion route.data with
  | none => .error ("Invalid route format: " ++ route)
  | some region =>
    .ok ("https://" ++ service ++ ".cf." ++ String.mk region ++ ".hana.ondemand.com")

/-- `route.replace(/^(https?:\/\/)?([^/]+)\/?$/g, "https://$2")`
(src/unnamed/part_003 line 210): when the whole route is an optional
http(s) scheme, a non-empty slash-free host, and an optional trailing
slash, the result is `https://<host>`; otherwise the route is returned
unchanged (the anchored pattern did not match). -/
def rewriteTarget (route : String) : String :=
  let cs := route.data
  let rest :=
    if cs.take 8 = "https://".data then cs.drop 8
    else if cs.take 7 = "http://".data then cs.drop 7
    else cs
  let host := if rest.getLast? = some '/' then rest.dropLast else rest
  if host ≠ [] ∧ '/' ∉ host then String.mk ("https://".data ++ host) else route

/-! ## Binder: authenticate / buildEnv with an external-call trace

The binder's external effects (the `cf` CLI subprocesses and the HTTP
calls of `buildEnv`) are modelled by an oracle giving each call's outcome,
and every performed call is recorded in a trace, so that "fails before any
external call" is expressible as an empty trace. -/

/-- The external calls the binder can perform, in the order the source
makes them. -/
inductive ExtCall where
  | execOauthToken : ExtCall
  | execSsoLogin : ExtCall
  | httpGetRoutes : ExtCall
  | httpGetBindings (service : String) : ExtCall
  | httpPostOauthToken : ExtCall
  | httpGetDestinations : ExtCall
deriving DecidableEq

/-- Outcomes of the binder's external calls.  `oauthToken` values are the
already-trimmed stdout of `cf oauth-token`; credential and destination
payloads are carried opaquely. -/
structure BindOracle where
  oauthToken : Except String String
  ssoLogin : Except String Unit
  oauthTokenAfterLogin : Except String String
  appGuid : Except String String
  uaaCredentials : Except String String
  destCredentials : Except String String
  destAccessToken : Except String String
  destinationNames : Except String (List String)

/-- The `(baseURL, Authorization header)` pair `authenticate` yields. -/
structure AuthContext where
  baseURL : String
  authorizationHeader : String
deriving DecidableEq

/-- `authenticate(route)` (src/unnamed/part_003 lines 36-77): derive the
API URL, try `cf oauth-token`; a failure or a token not starting in
"bearer" falls back to `cf login --sso` followed by a fresh
`cf oauth-token`; any failure on that path is `CF SSO login failed.`. -/
def authenticate (route : String) (o : BindOracle) :
    Except String AuthContext × List ExtCall :=
  match getCloudFoundryURL route "api" with
  | .error e => (.error e, [])
  | .ok apiURL =>
    let ssoPath : Except String AuthContext × List ExtCall :=
      match o.ssoLogin with
      | .error _ => (.error "CF SSO login failed.", [.execSsoLogin])
      | .ok _ =>
        match o.oauthTokenAfterLogin with
        | .error _ => (.error "CF SSO login failed.", [.execSsoLogin, .execOauthToken])
        | .ok tok2 =>
          if tok2.data.take 6 = "bearer".data then
            (.ok ⟨apiURL, tok2⟩, [.execSsoLogin, .execOauthToken])
          else (.error "CF SSO login failed.", [.execSsoLogin, .execOauthToken])
    match o.oauthToken with
    | .error _ => (ssoPath.1, .execOauthToken :: ssoPath.2)
    | .ok tok =>
      if tok.data.take 6 = "bearer".data then (.ok ⟨apiURL, tok⟩, [.execOauthToken])
      else (ssoPath.1, .execOauthToken :: ssoPath.2)

/-- Host extraction of `getAppGuid`:
`(url.match(/^(https?:\/\/)?([^.]+)/) || [])[2]`.  The engine prefers the
scheme group; if the character after the scheme is '.', it backtracks and
matches `[^.]+` from the start of the string. -/
def extractHost (url : String) : Option String :=
  let cs := url.data
  let afterScheme :=
    if cs.take 8 = "https://".data then
      let h := (cs.drop 8).takeWhile (fun c => c ≠ '.')
      if h = [] then none else some (String.mk h)
    else if cs.take 7 = "http://".data then
      let h := (cs.drop 7).takeWhile (fun c => c ≠ '.')
      if h = [] then none else some (String.mk h)
    else none
  match afterScheme with
  | some h => some h
  | none =>
    let h := cs.takeWhile (fun c => c ≠ '.')
    if h = [] then none else some (String.mk h)

/-- What the binder derives and serializes (the configuration-artifact
fields the claims are about): the platform API URL and the Target Base. -/
structure BindOut where
  apiURL : String
  target : String
deriving DecidableEq

/-- `buildEnv` (src/unnamed/part_003 lines 190-214) as a sequence of
oracle calls, followed by the Target Base computation
`route.replace(... , "https://$2")`. -/
def buildEnv (route : String) (auth : AuthContext) (o : BindOracle)
    (uaaInstance destInstance : String) : Except String String × List ExtCall :=
  match extractHost route with
  | none => (.error "Invalid host", [])
  | some _ =>
    match o.appGuid with
    | .error _ => (.error "Failed to fetch routes from Cloud Foundry API", [.httpGetRoutes])
    | .ok _ =>
      match o.uaaCredentials with
      | .error e => (.error e, [.httpGetRoutes, .httpGetBindings uaaInstance])
      | .ok _ =>
        match o.destCredentials with
        | .error e =>
          (.error e, [.httpGetRoutes, .httpGetBindings uaaInstance,
            .httpGetBindings destInstance])
        | .ok _ =>
          match o.destAccessToken with
          | .error e =>
            (.error e, [.httpGetRoutes, .httpGetBindings uaaInstance,
              .httpGetBindings destInstance, .httpPostOauthToken])
          | .ok _ =>
            match o.destinationNames with
            | .error e =>
              (.error e, [.httpGetRoutes, .httpGetBindings uaaInstance,
                .httpGetBindings destInstance, .httpPostOauthToken,
                .httpGetDestinations])
            | .ok _ =>
              (.ok (rewriteTarget route),
                [.httpGetRoutes, .httpGetBindings uaaInstance,
                  .httpGetBindings destInstance, .httpPostOauthToken,
                  .httpGetDestinations])

/-- The exported bind command (src/unnamed/part_003 lines 239-246): first
`getCloudFoundryURL(route, "api")` (throws on a malformed route before
anything else runs), then `authenticate`, then `buildEnv`; the artifact
write itself is modelled separately by `writeEnv`.  (Named `bindCommand`
because `bind` collides with the monadic bind in scope.) -/
def bindCommand (route : String) (o : BindOracle) (uaaInstance destInstance : String) :
    Except String BindOut × List ExtCall :=
  match getCloudFoundryURL route "api" with
  | .error e => (.error e, [])
  | .ok apiURL =>
    match authenticate route o with
    | (.error e, tr) => (.error e, tr)
    | (.ok auth, tr) =>
      match buildEnv route auth o uaaInstance destInstance with
      | (.error e, tr2) => (.error e, tr ++ tr2)
      | (.ok target, tr2) => (.ok ⟨apiURL, target⟩, tr ++ tr2)

/-! ## Binder: writeEnv (src/unnamed/part_003 lines 223-237)

The directory is a finite association list of file names to contents;
`existsSync` is membership among the names.  The candidate names are
".env", ".1.env", ".2.env", ... (`.${++index}.env` — the index is
pre-incremented, so the first retry uses suffix 1).  The JS `while` loop is
modelled with explicit fuel; `writeEnv_terminates` below shows that fuel
`n + 1` always suffices for a directory of `n` files. -/

/-- The candidate file name for loop index `i`. -/
def candName (i : Nat) : String :=
  if i = 0 then ".env" else "." ++ Nat.repr i ++ ".env"

/-- The retry loop of `writeEnv`: starting at index `i`, return the first
candidate name not already present, giving up when the fuel runs out. -/
def findFreeName (names : List String) : Nat → Nat → Option String
  | 0, _ => none
  | fuel + 1, i =>
    if candName i ∈ names then findFreeName names fuel (i + 1)
    else some (candName i)

/-- `writeEnv(env, envPath)`: find the first unused candidate name and
write `env` under it; no existing file is touched.  Returns the chosen name
and the new directory contents (`none` only if the fuel bound were ever
insufficient, which `writeEnv_terminates` refutes). -/
def writeEnv (env : String) (dir : List (String × String)) :
    Option (String × List (String × String)) :=
  match findFreeName (dir.map Prod.fst) (dir.length + 1) 0 with
  | some name => some (name, dir ++ [(name, env)])
  | none => none

/-! ## Specification-side helper definitions -/

/-- An ordinary path segment: non-empty, not a dot segment, slash-free. -/
def goodSeg (s : String) : Bool :=
  decide (s ≠ "" ∧ s ≠ "." ∧ s ≠ ".." ∧ '/' ∉ s.data)

/-- Segments joined with "/" (specification-side constructor for paths). -/
def joinPath : List String → String
  | [] => ""
  | [s] => s
  | s :: rest => s ++ "/" ++ joinPath rest

/-- Cache value after one request: the handler's resulting token on
success, the unchanged previous token when the handler aborted. -/
def nextToken (tok : Option String) (r : Request) (e : ReqEnv) : Option String :=
  match handleRequest tok r e with
  | .ok h => h.token
  | .error _ => tok

/-- The shared cached token in effect when request number `i` (0-based) of
the list starts being handled. -/
def tokBefore : Option String → List (Request × ReqEnv) → Nat → Option String
  | t0, _, 0 => t0
  | t0, [], _ + 1 => t0
  | t0, (r, e) :: rest, i + 1 => tokBefore (nextToken t0 r e) rest i

/-! ## Decimal representation: `Nat.repr` is injective -/

/-- Big-endian decimal digits of a natural number (reference definition for
`Nat.toDigits 10`). -/
def decRepr (n : Nat) : List Char :=
  if n < 10 then [Nat.digitChar n]
  else decRepr (n / 10) ++ [Nat.digitChar (n % 10)]
decreasing_by
  exact Nat.div_lt_self (by omega) (by omega)

/-- Value of a big-endian decimal digit list. -/
def decVal (l : List Char) : Nat :=
  l.foldl (fun a c => a * 10 + (c.toNat - 48)) 0

theorem toDigitsCore_eq_decRepr (fuel : Nat) :
    ∀ (n : Nat) (acc : List Char), n < fuel →
      Nat.toDigitsCore 10 fuel n acc = decRepr n ++ acc := by
  induction fuel with
  | zero => intro n acc h; omega
  | succ f ih =>
    intro n acc h
    rw [Nat.toDigitsCore]
    by_cases h10 : n / 10 = 0
    · have hn : n < 10 := by omega
      have hd : decRepr n = [Nat.digitChar n] := by
        rw [decRepr]; simp [hn]
      rw [hd]
      simp [h10, Nat.mod_eq_of_lt hn]
    · have hn : ¬ n < 10 := fun hlt => h10 (Nat.div_eq_of_lt hlt)
      have hdiv : n / 10 < f := by
        have h1 : n / 10 < n := Nat.div_lt_self (by omega) (by omega)
        omega
      simp only [if_neg h10]
      rw [ih (n / 10) _ hdiv]
      conv_rhs => rw [decRepr]
      simp [hn]

theorem repr_data_eq_decRepr (n : Nat) : (Nat.repr n).data = decRepr n := by
  show (Nat.toDigits 10 n).asString.data = decRepr n
  rw [Nat.toDigits, toDigitsCore_eq_decRepr (n + 1) n [] (Nat.lt_succ_self n)]
  simp [List.asString]

theorem digitChar_decode {d : Nat} (h : d < 10) :
    (Nat.digitChar d).toNat - 48 = d := by
  interval_cases d <;> rfl

theorem decRepr_foldl (n : Nat) :
    ∀ a : Nat, List.foldl (fun a c => a * 10 + (c.toNat - 48)) a (decRepr n) =
      a * 10 ^ (decRepr n).length + n := by
  induction n using Nat.strong_induction_on with
  | _ n ih =>
    intro a
    by_cases h : n < 10
    · rw [decRepr, if_pos h]
      simp [digitChar_decode h]
    · rw [decRepr, if_neg h]
      rw [List.foldl_append]
      have hdiv : n / 10 < n := Nat.div_lt_self (by omega) (by omega)
      rw [ih (n / 10) hdiv a]
      simp only [List.foldl_cons, List.foldl_nil, List.length_append,
        List.length_cons, List.length_nil]
      rw [digitChar_decode (Nat.mod_lt n (by omega))]
      rw [pow_succ]
      have := Nat.div_add_mod n 10
      ring_nf
      omega

theorem decVal_decRepr (n : Nat) : decVal (decRepr n) = n := by
  have := decRepr_foldl n 0
  simpa [decVal] using this

theorem decRepr_injective : Function.Injective decRepr := by
  intro m n h
  have hm := decVal_decRepr m
  rw [h, decVal_decRepr] at hm
  omega

theorem natRepr_injective : Function.Injective Nat.repr := by
  intro m n h
  apply decRepr_injective
  rw [← repr_data_eq_decRepr, ← repr_data_eq_decRepr, h]

theorem decRepr_ne_nil (n : Nat) : decRepr n ≠ [] := by
  rw [decRepr]
  by_cases h : n < 10 <;> simp [h]

theorem natRepr_length_pos (n : Nat) : 0 < (Nat.repr n).length := by
  have h := repr_data_eq_decRepr n
  have h2 := decRepr_ne_nil n
  simp only [String.length]
  rw [h]
  exact List.length_pos.mpr h2

theorem candName_injective : Function.Injective candName := by
  intro i j h
  unfold candName at h
  by_cases hi : i = 0 <;> by_cases hj : j = 0
  · omega
  · exfalso
    rw [if_pos hi, if_neg hj] at h
    have := congrArg String.length h
    simp only [String.length_append] at this
    have hlen := natRepr_length_pos j
    have h4 : (".env" : String).length = 4 := rfl
    have h1 : ("." : String).length = 1 := rfl
    omega
  · exfalso
    rw [if_neg hi, if_pos hj] at h
    have := congrArg String.length h
    simp only [String.length_append] at this
    have hlen := natRepr_length_pos i
    have h4 : (".env" : String).length = 4 := rfl
    have h1 : ("." : String).length = 1 := rfl
    omega
  · rw [if_neg hi, if_neg hj] at h
    have hdata := congrArg String.data h
    simp only [String.data_append] at hdata
    have h2 := List.append_cancel_right hdata
    have h3 := List.append_cancel_left h2
    exact natRepr_injective (by apply String.ext; exact h3)

/-- Pigeonhole: among the first `n + 1` candidate names at least one is not
in a list of `n` names. -/
theorem exists_free_candName (names : List String) :
    ∃ i, i ≤ names.length ∧ candName i ∉ names := by
  by_contra hcon
  push_neg at hcon
  have hsub : (Finset.range (names.length + 1)).image candName ⊆ names.toFinset := by
    intro x hx
    simp only [Finset.mem_image, Finset.mem_range] at hx
    obtain ⟨i, hi, rfl⟩ := hx
    exact List.mem_toFinset.mpr (hcon i (by omega))
  have hcard : ((Finset.range (names.length + 1)).image candName).card =
      names.length + 1 := by
    rw [Finset.card_image_of_injective _ candName_injective, Finset.card_range]
  have hle := Finset.card_le_card hsub
  have htf := names.toFinset_card_le
  omega

/-- Correctness of the retry loop: if `k` is the first free index at or
after `i` and the fuel reaches it, the loop returns `candName k`. -/
theorem findFreeName_eq (names : List String) :
    ∀ (fuel i k : Nat), candName k ∉ names → i ≤ k →
      (∀ j, i ≤ j → j < k → candName j ∈ names) → k < i + fuel →
      findFreeName names fuel i = some (candName k) := by
  intro fuel
  induction fuel with
  | zero => intro i k _ h2 _ h4; omega
  | succ f ih =>
    intro i k h1 h2 h3 h4
    rw [findFreeName]
    by_cases hik : i = k
    · subst hik
      rw [if_neg (by simpa using h1)]
    · have hikk : i < k := by omega
      rw [if_pos (h3 i (Nat.le_refl i) hikk)]
      exact ih (i + 1) k h1 (by omega) (fun j hj1 hj2 => h3 j (by omega) hj2) (by omega)

/-! ## Path rewrite: specification-side path shape and correctness -/

theorem segsOfAux_push (cs : List Char) :
    ∀ (s cur : List Char), (∀ c ∈ s, c ≠ '/') → (s ≠ [] ∨ cur ≠ []) →
      segsOfAux (s ++ '/' :: cs) cur = (cur.reverse ++ s) :: segsOfAux cs [] := by
  intro s
  induction s with
  | nil =>
    intro cur _ hne
    have hc : cur ≠ [] := by
      rcases hne with h | h
      · exact absurd rfl h
      · exact h
    show segsOfAux ('/' :: cs) cur = _
    rw [segsOfAux, if_pos rfl, if_neg hc]
    simp
  | cons a s2 ih =>
    intro cur hs hne
    have ha : a ≠ '/' := hs a (by simp)
    show segsOfAux (a :: (s2 ++ '/' :: cs)) cur = _
    rw [segsOfAux, if_neg ha]
    rw [ih (a :: cur) (fun c hc => hs c (by simp [hc])) (Or.inr (by simp))]
    simp

theorem segsOfAux_last (s : List Char) :
    ∀ cur, (∀ c ∈ s, c ≠ '/') → (s ≠ [] ∨ cur ≠ []) →
      segsOfAux s cur = [cur.reverse ++ s] := by
  induction s with
  | nil =>
    intro cur _ hne
    have hc : cur ≠ [] := by
      rcases hne with h | h
      · exact absurd rfl h
      · exact h
    rw [segsOfAux, if_neg hc]
    simp
  | cons a s2 ih =>
    intro cur hs _
    have ha : a ≠ '/' := hs a (by simp)
    rw [segsOfAux, if_neg ha]
    rw [ih (a :: cur) (fun c hc => hs c (by simp [hc])) (Or.inr (by simp))]
    simp

theorem segsOf_cons_slash (cs : List Char) : segsOf ('/' :: cs) = segsOf cs := by
  show segsOfAux ('/' :: cs) [] = segsOfAux cs []
  rw [segsOfAux, if_pos rfl, if_pos rfl]

theorem segsOf_seg_append (s cs : List Char) (hne : s ≠ []) (hs : ∀ c ∈ s, c ≠ '/') :
    segsOf (s ++ '/' :: cs) = s :: segsOf cs := by
  show segsOfAux (s ++ '/' :: cs) [] = s :: segsOfAux cs []
  rw [segsOfAux_push cs s [] hs (Or.inl hne)]
  simp

theorem segsOf_seg (s : List Char) (hne : s ≠ []) (hs : ∀ c ∈ s, c ≠ '/') :
    segsOf s = [s] := by
  show segsOfAux s [] = [s]
  rw [segsOfAux_last s [] hs (Or.inl hne)]
  simp

theorem goodSeg_data {s : String} (h : goodSeg s = true) :
    s.data ≠ [] ∧ s.data ≠ ['.'] ∧ s.data ≠ ['.', '.'] ∧ '/' ∉ s.data := by
  obtain ⟨h1, h2, h3, h4⟩ := of_decide_eq_true h
  refine ⟨?_, ?_, ?_, h4⟩
  · intro hc
    exact h1 (String.ext hc)
  · intro hc
    exact h2 (String.ext hc)
  · intro hc
    exact h3 (String.ext hc)

theorem joinPath_cons_cons (s r : String) (rest : List String) :
    joinPath (s :: r :: rest) = s ++ "/" ++ joinPath (r :: rest) := rfl

theorem joinSegs_cons_cons (s r : List Char) (rest : List (List Char)) :
    joinSegs (s :: r :: rest) = s ++ '/' :: joinSegs (r :: rest) := rfl

theorem joinSegs_map_data (segs : List String) :
    joinSegs (segs.map String.data) = (joinPath segs).data := by
  induction segs with
  | nil => rfl
  | cons s rest ih =>
    cases rest with
    | nil => rfl
    | cons r rest2 =>
      simp only [List.map_cons] at ih ⊢
      rw [joinPath_cons_cons, joinSegs_cons_cons]
      simp only [String.data_append]
      rw [← ih]
      simp

theorem joinPath_data_ne_nil (segs : List String)
    (hne : segs ≠ []) (hgood : ∀ s ∈ segs, goodSeg s = true) :
    (joinPath segs).data ≠ [] := by
  match segs, hne with
  | s :: rest, _ =>
    cases rest with
    | nil =>
      exact (goodSeg_data (hgood s (by simp))).1
    | cons r rest2 =>
      rw [joinPath_cons_cons]
      simp only [String.data_append]
      intro hc
      have := (goodSeg_data (hgood s (by simp))).1
      simp only [List.append_assoc, List.append_eq_nil] at hc
      exact this hc.1

theorem joinPath_getLast_ne_slash (segs : List String)
    (hne : segs ≠ []) (hgood : ∀ s ∈ segs, goodSeg s = true) :
    ∀ c, (joinPath segs).data.getLast? = some c → c ≠ '/' := by
  induction segs with
  | nil => exact absurd rfl hne
  | cons s rest ih =>
    cases rest with
    | nil =>
      intro c hc
      have hmem : c ∈ s.data := List.mem_of_mem_getLast? hc
      intro hslash
      subst hslash
      exact (goodSeg_data (hgood s (by simp))).2.2.2 hmem
    | cons r rest2 =>
      intro c hc
      rw [joinPath_cons_cons] at hc
      simp only [String.data_append] at hc
      have hjp : (joinPath (r :: rest2)).data ≠ [] :=
        joinPath_data_ne_nil _ (by simp) (fun x hx => hgood x (by simp [hx]))
      rw [List.getLast?_append] at hc
      have hlast : (joinPath (r :: rest2)).data.getLast?.isSome := by
        rw [List.getLast?_isSome]
        exact hjp
      obtain ⟨c2, hc2⟩ := Option.isSome_iff_exists.mp hlast
      rw [hc2] at hc
      simp only [Option.or_some] at hc
      have hcc : c2 = c := by injection hc
      subst hcc
      exact ih (by simp) (fun x hx => hgood x (by simp [hx])) c2 hc2

theorem segsOf_joinPath (tc : List Char) (htc : tc = [] ∨ tc = ['/']) :
    ∀ (segs : List String), (∀ s ∈ segs, goodSeg s = true) →
      segsOf ((joinPath segs).data ++ tc) = segs.map String.data := by
  intro segs
  induction segs with
  | nil =>
    intro _
    rcases htc with h | h <;> subst h
    · rfl
    · show segsOf ('/' :: []) = []
      rw [segsOf_cons_slash]
      rfl
  | cons s rest ih =>
    intro hgood
    have hs := goodSeg_data (hgood s (by simp))
    have hnoslash : ∀ c ∈ s.data, c ≠ '/' :=
      fun c hc hslash => hs.2.2.2 (hslash ▸ hc)
    cases rest with
    | nil =>
      show segsOf (s.data ++ tc) = [s.data]
      rcases htc with h | h <;> subst h
      · rw [List.append_nil]
        exact segsOf_seg s.data hs.1 hnoslash
      · rw [segsOf_seg_append s.data [] hs.1 hnoslash]
        rfl
    | cons r rest2 =>
      rw [joinPath_cons_cons]
      have hstep : (s ++ "/" ++ joinPath (r :: rest2)).data ++ tc
          = s.data ++ '/' :: ((joinPath (r :: rest2)).data ++ tc) := by
        show (s.data ++ ['/'] ++ (joinPath (r :: rest2)).data) ++ tc
          = s.data ++ '/' :: ((joinPath (r :: rest2)).data ++ tc)
        simp
      rw [hstep, segsOf_seg_append s.data _ hs.1 hnoslash,
        ih (fun x hx => hgood x (by simp [hx]))]
      rfl

theorem collapseDots_nil (ab : Bool) (acc : List (List Char)) :
    collapseDots ab acc [] = acc.reverse := by
  rw [collapseDots.eq_def]

theorem collapseDots_cons_keep (ab : Bool) (acc : List (List Char))
    (s : List Char) (rest : List (List Char))
    (h1 : s ≠ []) (h2 : s ≠ ['.']) (h3 : s ≠ ['.', '.']) :
    collapseDots ab acc (s :: rest) = collapseDots ab (s :: acc) rest := by
  rw [collapseDots.eq_def]
  simp [h1, h2, h3]

theorem collapseDots_keep (ab : Bool) :
    ∀ (L acc : List (List Char)),
      (∀ s ∈ L, s ≠ [] ∧ s ≠ ['.'] ∧ s ≠ ['.', '.']) →
      collapseDots ab acc L = acc.reverse ++ L := by
  intro L
  induction L with
  | nil =>
    intro acc _
    rw [collapseDots_nil]
    simp
  | cons s rest ih =>
    intro acc hgood
    obtain ⟨h1, h2, h3⟩ := hgood s (by simp)
    rw [collapseDots_cons_keep ab acc s rest h1 h2 h3,
      ih (s :: acc) (fun x hx => hgood x (by simp [hx]))]
    simp

theorem getLast?_append_ne_nil (l1 l2 : List Char) (h : l2 ≠ []) :
    (l1 ++ l2).getLast? = l2.getLast? := by
  rw [List.getLast?_append]
  have hs : l2.getLast?.isSome := by
    rw [List.getLast?_isSome]
    exact h
  obtain ⟨c, hc⟩ := Option.isSome_iff_exists.mp hs
  rw [hc]
  rfl

theorem normalizeChars_eq (cs : List Char) :
    normalizeChars cs =
      (if (collapseDots (!decide (cs.head? = some '/')) [] (segsOf cs)).isEmpty then
        (if cs.head? = some '/' then ['/']
         else if cs.getLast? = some '/' then ['.', '/'] else ['.'])
      else
        ((if cs.head? = some '/'
          then '/' :: joinSegs (collapseDots (!decide (cs.head? = some '/')) [] (segsOf cs))
          else joinSegs (collapseDots (!decide (cs.head? = some '/')) [] (segsOf cs))) ++
          (if cs.getLast? = some '/' then ['/'] else []))) := rfl

theorem posixJoin3_good (d : String) (segs : List String) (trail : Bool)
    (hd : goodSeg d = true)
    (hsegs : ∀ s ∈ segs, goodSeg s = true)
    (htrail : trail = true → segs ≠ []) :
    posixJoin3 "/proxy" d ("/" ++ joinPath segs ++ (if trail then "/" else ""))
      = "/proxy/" ++ d ++ ("/" ++ joinPath segs ++ (if trail then "/" else "")) := by
  have hdd := goodSeg_data hd
  have hdne : d ≠ "" := fun hc => hdd.1 (congrArg String.data hc)
  have hdnoslash : ∀ c ∈ d.data, c ≠ '/' :=
    fun c hc hslash => hdd.2.2.2 (hslash ▸ hc)
  have hpx : ("/proxy" : String).data = '/' :: ("proxy" : String).data := rfl
  rcases segs with _ | ⟨s1, rest⟩
  · -- no interior segments: the path is exactly "/" and trail must be false
    have htr : trail = false := by
      cases trail
      · rfl
      · exact absurd rfl (htrail rfl)
    subst htr
    show posixJoin3 "/proxy" d "/" = "/proxy/" ++ d ++ "/"
    have hpne : ("/" : String) ≠ "" := by decide
    have hstep1 : posixJoin3 "/proxy" d "/"
        = posixNormalize ("/proxy" ++ "/" ++ d ++ "/" ++ "/") := by
      rw [posixJoin3]
      simp [List.filter_cons, hdne, hpne]
    have hXdata : ("/proxy" ++ "/" ++ d ++ "/" ++ "/").data
        = '/' :: (("proxy" : String).data ++ '/' :: (d.data ++ '/' :: ['/'])) := by
      show ((((("/proxy" : String).data ++ ['/']) ++ d.data) ++ ['/']) ++ ['/']) = _
      rw [hpx]
      simp
    have hXne : ("/proxy" ++ "/" ++ d ++ "/" ++ "/") ≠ "" := by
      intro hc
      have h2 := congrArg String.data hc
      rw [hXdata] at h2
      simp at h2
    rw [hstep1, posixNormalize, if_neg hXne, hXdata]
    have hsegsOf : segsOf ('/' :: (("proxy" : String).data ++ '/' :: (d.data ++ '/' :: ['/'])))
        = [("proxy" : String).data, d.data] := by
      rw [segsOf_cons_slash]
      rw [segsOf_seg_append _ _ (by decide) (by decide)]
      rw [segsOf_seg_append _ _ hdd.1 hdnoslash]
      rw [segsOf_cons_slash]
      rfl
    have hgoodall : ∀ s ∈ [("proxy" : String).data, d.data],
        s ≠ [] ∧ s ≠ ['.'] ∧ s ≠ ['.', '.'] := by
      intro s hs
      simp only [List.mem_cons, List.not_mem_nil, or_false] at hs
      rcases hs with h | h
      · subst h
        exact ⟨by decide, by decide, by decide⟩
      · subst h
        exact ⟨hdd.1, hdd.2.1, hdd.2.2.1⟩
    have hlastc : ('/' :: (("proxy" : String).data ++ '/' :: (d.data ++ '/' :: ['/']))).getLast?
        = some '/' := by
      have hshape : ('/' :: (("proxy" : String).data ++ '/' :: (d.data ++ '/' :: ['/'])))
          = ('/' :: ("proxy" : String).data ++ '/' :: d.data ++ ['/']) ++ ['/'] := by
        simp
      rw [hshape, getLast?_append_ne_nil _ _ (by simp)]
      rfl
    rw [normalizeChars_eq, hsegsOf, collapseDots_keep _ _ [] hgoodall]
    simp only [List.reverse_nil, List.nil_append, List.head?_cons, hlastc,
      List.isEmpty_cons, Bool.false_eq_true, if_false]
    apply String.ext
    show ('/' :: joinSegs [("proxy" : String).data, d.data] ++ ['/'])
        = ("/proxy/" ++ d ++ "/").data
    have hjs : joinSegs [("proxy" : String).data, d.data] =
        ("proxy" : String).data ++ '/' :: d.data := rfl
    have hR : ("/proxy/" ++ d ++ "/").data
        = (('/' :: ("proxy" : String).data ++ ['/']) ++ d.data) ++ ['/'] := rfl
    rw [hjs, hR]
    simp
  · -- at least one interior segment
    have hsegne : (s1 :: rest) ≠ [] := by simp
    have hjpne : (joinPath (s1 :: rest)).data ≠ [] :=
      joinPath_data_ne_nil _ hsegne hsegs
    have htrcor : (if trail then ['/'] else ([] : List Char)) = [] ∨
        (if trail then ['/'] else ([] : List Char)) = ['/'] := by
      cases trail <;> simp
    have hpdata : ("/" ++ joinPath (s1 :: rest) ++ (if trail then "/" else "")).data
        = '/' :: ((joinPath (s1 :: rest)).data ++ (if trail then ['/'] else [])) := by
      cases trail <;> simp
    have hpne : ("/" ++ joinPath (s1 :: rest) ++ (if trail then "/" else "")) ≠ "" := by
      intro hc
      have h2 := congrArg String.data hc
      rw [hpdata] at h2
      simp at h2
    have hpdne : ("/" ++ joinPath (s1 :: rest) ++ (if trail then "/" else "")).data ≠ [] := by
      rw [hpdata]
      simp
    have hstep1 : posixJoin3 "/proxy" d ("/" ++ joinPath (s1 :: rest) ++ (if trail then "/" else ""))
        = posixNormalize ("/proxy" ++ "/" ++ d ++ "/" ++
            ("/" ++ joinPath (s1 :: rest) ++ (if trail then "/" else ""))) := by
      rw [posixJoin3]
      simp [List.filter_cons, hdne, hpne]
    have hXdata : ("/proxy" ++ "/" ++ d ++ "/" ++
          ("/" ++ joinPath (s1 :: rest) ++ (if trail then "/" else ""))).data
        = '/' :: (("proxy" : String).data ++ '/' :: (d.data ++ '/' ::
            ('/' :: ((joinPath (s1 :: rest)).data ++ (if trail then ['/'] else []))))) := by
      show ((((("/proxy" : String).data ++ ['/']) ++ d.data) ++ ['/']) ++
          ("/" ++ joinPath (s1 :: rest) ++ (if trail then "/" else "")).data) = _
      rw [hpx, hpdata]
      simp
    have hXne : ("/proxy" ++ "/" ++ d ++ "/" ++
        ("/" ++ joinPath (s1 :: rest) ++ (if trail then "/" else ""))) ≠ "" := by
      intro hc
      have h2 := congrArg String.data hc
      rw [hXdata] at h2
      simp at h2
    rw [hstep1, posixNormalize, if_neg hXne, hXdata]
    have hsegsOf : segsOf ('/' :: (("proxy" : String).data ++ '/' :: (d.data ++ '/' ::
          ('/' :: ((joinPath (s1 :: rest)).data ++ (if trail then ['/'] else []))))))
        = ("proxy" : String).data :: d.data :: (s1 :: rest).map String.data := by
      rw [segsOf_cons_slash]
      rw [segsOf_seg_append _ _ (by decide) (by decide)]
      rw [segsOf_seg_append _ _ hdd.1 hdnoslash]
      rw [segsOf_cons_slash]
      rw [segsOf_joinPath _ htrcor _ hsegs]
    have hgoodall : ∀ s ∈ (("proxy" : String).data :: d.data :: (s1 :: rest).map String.data),
        s ≠ [] ∧ s ≠ ['.'] ∧ s ≠ ['.', '.'] := by
      intro s hs
      simp only [List.mem_cons] at hs
      rcases hs with h | h | h
      · subst h
        exact ⟨by decide, by decide, by decide⟩
      · subst h
        exact ⟨hdd.1, hdd.2.1, hdd.2.2.1⟩
      · have h2 : s ∈ (s1 :: rest).map String.data := by
          simpa using h
        simp only [List.mem_map] at h2
        obtain ⟨x, hx, rfl⟩ := h2
        have hg := goodSeg_data (hsegs x hx)
        exact ⟨hg.1, hg.2.1, hg.2.2.1⟩
    have hshape : ('/' :: (("proxy" : String).data ++ '/' :: (d.data ++ '/' ::
          ('/' :: ((joinPath (s1 :: rest)).data ++ (if trail then ['/'] else []))))))
        = ('/' :: ("proxy" : String).data ++ '/' :: d.data ++ ['/', '/']) ++
            ((joinPath (s1 :: rest)).data ++ (if trail then ['/'] else [])) := by
      simp
    have hlastc : ('/' :: (("proxy" : String).data ++ '/' :: (d.data ++ '/' ::
          ('/' :: ((joinPath (s1 :: rest)).data ++ (if trail then ['/'] else [])))))).getLast?
        = ((joinPath (s1 :: rest)).data ++ (if trail then ['/'] else [])).getLast? := by
      rw [hshape]
      apply getLast?_append_ne_nil
      intro hc
      rcases List.append_eq_nil.mp hc with ⟨h1, _⟩
      exact hjpne h1
    rw [normalizeChars_eq, hsegsOf, collapseDots_keep _ _ [] hgoodall]
    simp only [List.reverse_nil, List.nil_append, List.head?_cons, hlastc, List.isEmpty_cons,
      Bool.false_eq_true, if_false]
    apply String.ext
    show ('/' :: joinSegs (("proxy" : String).data :: d.data :: (s1 :: rest).map String.data)) ++
        (if ((joinPath (s1 :: rest)).data ++ (if trail then ['/'] else [])).getLast? = some '/'
          then ['/'] else [])
      = ("/proxy/" ++ d ++ ("/" ++ joinPath (s1 :: rest) ++ (if trail then "/" else ""))).data
    have hjs : joinSegs (("proxy" : String).data :: d.data :: (s1 :: rest).map String.data)
        = (joinPath ("proxy" :: d :: s1 :: rest)).data := by
      have h2 := joinSegs_map_data ("proxy" :: d :: s1 :: rest)
      simpa only [List.map_cons] using h2
    have hR : ("/proxy/" ++ d ++ ("/" ++ joinPath (s1 :: rest) ++ (if trail then "/" else ""))).data
        = (('/' :: ("proxy" : String).data ++ ['/']) ++ d.data) ++
            ('/' :: ((joinPath (s1 :: rest)).data ++ (if trail then ['/'] else []))) := by
      show (("/proxy/" : String).data ++ d.data) ++
          ("/" ++ joinPath (s1 :: rest) ++ (if trail then "/" else "")).data = _
      rw [hpdata]
      rfl
    rw [hjs, hR, joinPath_cons_cons, joinPath_cons_cons]
    simp only [String.data_append]
    cases trail with
    | false =>
      simp only [Bool.false_eq_true, if_false, List.append_nil]
      have hlast2 : (joinPath (s1 :: rest)).data.getLast?.isSome := by
        rw [List.getLast?_isSome]
        exact hjpne
      obtain ⟨c, hc⟩ := Option.isSome_iff_exists.mp hlast2
      rw [hc]
      have hcne : c ≠ '/' := joinPath_getLast_ne_slash (s1 :: rest) hsegne hsegs c hc
      rw [if_neg (by simpa using hcne)]
      simp
    | true =>
      have hlast2 : ((joinPath (s1 :: rest)).data ++ ['/']).getLast? = some '/' := by
        rw [getLast?_append_ne_nil _ _ (by simp)]
        rfl
      simp [hlast2]

/-! ## Server loop structure lemmas -/

theorem processRequests_length (reqs : List (Request × ReqEnv)) :
    ∀ t0, (processRequests t0 reqs).length = reqs.length := by
  induction reqs with
  | nil => intro t0; rfl
  | cons re rest ih =>
    intro t0
    obtain ⟨r, e⟩ := re
    rw [processRequests]
    simp only [List.length_cons, ih]

theorem processRequests_get (reqs : List (Request × ReqEnv)) :
    ∀ t0 i (h : i < reqs.length),
      ∃ h2 : i < (processRequests t0 reqs).length,
        (processRequests t0 reqs).get ⟨i, h2⟩ =
          { tokenBefore := tokBefore t0 reqs i
            result := handleRequest (tokBefore t0 reqs i)
              (reqs.get ⟨i, h⟩).1 (reqs.get ⟨i, h⟩).2
            tokenAfter := nextToken (tokBefore t0 reqs i)
              (reqs.get ⟨i, h⟩).1 (reqs.get ⟨i, h⟩).2 } := by
  induction reqs with
  | nil => intro t0 i h; simp at h
  | cons re rest ih =>
    intro t0 i h
    obtain ⟨r, e⟩ := re
    cases i with
    | zero =>
      refine ⟨by rw [processRequests_length]; simpa using h, ?_⟩
      rfl
    | succ j =>
      have hj : j < rest.length := by simpa using h
      obtain ⟨h2, hget⟩ := ih (nextToken t0 r e) j hj
      have hlen : j + 1 < (processRequests t0 ((r, e) :: rest)).length := by
        rw [processRequests_length]
        simpa using h
      refine ⟨hlen, ?_⟩
      have hstep : (processRequests t0 ((r, e) :: rest)).get ⟨j + 1, hlen⟩
          = (processRequests (nextToken t0 r e) rest).get ⟨j, h2⟩ := rfl
      rw [hstep, hget]
      rfl

/-! ## Environment loading lemmas -/

theorem lookupKV_append (l1 l2 : List (String × String)) (k : String) :
    lookupKV (l1 ++ l2) k = (lookupKV l1 k).or (lookupKV l2 k) := by
  induction l1 with
  | nil => rfl
  | cons kv rest ih =>
    obtain ⟨k2, v⟩ := kv
    rw [List.cons_append, lookupKV, lookupKV]
    by_cases hk : k2 = k
    · rw [if_pos hk, if_pos hk]
      rfl
    · rw [if_neg hk, if_neg hk, ih]

theorem lookupKV_isSome_iff (l : List (String × String)) (k : String) :
    (lookupKV l k).isSome = true ↔ k ∈ l.map Prod.fst := by
  induction l with
  | nil => simp [lookupKV]
  | cons kv rest ih =>
    obtain ⟨k2, v⟩ := kv
    rw [lookupKV]
    by_cases hk : k2 = k
    · subst hk
      simp
    · rw [if_neg hk]
      simp [ih, hk, Ne.symm hk]

theorem lookupKV_nil (k : String) : lookupKV [] k = none := rfl

theorem lookupKV_cons (k1 v1 : String) (rest : List (String × String)) (k : String) :
    lookupKV ((k1, v1) :: rest) k = if k1 = k then some v1 else lookupKV rest k := rfl

theorem lookupKV_dotenvConfig (kvs : List (String × String)) :
    ∀ env k, lookupKV (dotenvConfig env kvs) k
      = (lookupKV env k).or (lookupKV kvs k) := by
  induction kvs with
  | nil =>
    intro env k
    show lookupKV env k = (lookupKV env k).or none
    rw [Option.or_none]
  | cons kv rest ih =>
    intro env k
    obtain ⟨k1, v1⟩ := kv
    show lookupKV (List.foldl _ (if (lookupKV env k1).isSome then env else env ++ [(k1, v1)]) rest) k = _
    by_cases hs : (lookupKV env k1).isSome
    · rw [if_pos hs]
      rw [show List.foldl (fun e kv => if (lookupKV e kv.1).isSome then e else e ++ [kv]) env rest
            = dotenvConfig env rest from rfl, ih env k, lookupKV_cons]
      by_cases hk : k1 = k
      · subst hk
        obtain ⟨v, hv⟩ := Option.isSome_iff_exists.mp hs
        rw [if_pos rfl, hv]
        rfl
      · rw [if_neg hk]
    · rw [if_neg hs]
      rw [show List.foldl (fun e kv => if (lookupKV e kv.1).isSome then e else e ++ [kv]) (env ++ [(k1, v1)]) rest
            = dotenvConfig (env ++ [(k1, v1)]) rest from rfl, ih (env ++ [(k1, v1)]) k]
      rw [lookupKV_append, lookupKV_cons, lookupKV_cons, lookupKV_nil]
      by_cases hk : k1 = k
      · rw [if_pos hk, if_pos hk, Option.or_assoc]
        rfl
      · rw [if_neg hk, if_neg hk, Option.or_none]

theorem lookupKV_foldl_config (parse : String → List (String × String)) (k : String) :
    ∀ (fs : List String) (env : List (String × String)),
      lookupKV (fs.foldl (fun e f => dotenvConfig e (parse f)) env) k
        = (lookupKV env k).or (fs.findSome? (fun f => lookupKV (parse f) k)) := by
  intro fs
  induction fs with
  | nil =>
    intro env
    rw [List.foldl_nil, List.findSome?_nil, Option.or_none]
  | cons f rest ih =>
    intro env
    rw [List.foldl_cons, ih (dotenvConfig env (parse f)), lookupKV_dotenvConfig,
      List.findSome?_cons, Option.or_assoc]
    cases lookupKV (parse f) k <;> rfl

/-! ## Claim theorems -/

/-- C4 counterexample: for the token `""` (present but empty) with a
successful security-context outcome, `isTokenExpired` resolves `true`
without delegating, whereas the claim requires delegation and the result
`false` for every non-absent token. -/
theorem c4_counterexample :
    isTokenExpired (some "") SecCtxOutcome.success = .ok true ∧
      (Except.ok true : Except String Bool) ≠ .ok false := by
  refine ⟨rfl, ?_⟩
  intro h
  simp at h

/-- C4 (amended): `isTokenExpired` resolves `true` when the token is absent
(null) or the empty string (both JS-falsy, short-circuiting the check);
for every other token it delegates to the security-context construction
call and resolves `false` exactly on success, `true` exactly on the
token-expired error, and rejects with any other error. -/
theorem c4_isTokenExpired_spec (token : Option String) (ctx : SecCtxOutcome) :
    ((token = none ∨ token = some "") → isTokenExpired token ctx = .ok true) ∧
    (∀ t, token = some t → t ≠ "" →
      (ctx = .success → isTokenExpired token ctx = .ok false) ∧
      (ctx = .tokenExpiredError → isTokenExpired token ctx = .ok true) ∧
      (∀ m, ctx = .otherError m → isTokenExpired token ctx = .error m)) := by
  constructor
  · rintro (rfl | rfl) <;> rfl
  · rintro t rfl ht
    refine ⟨?_, ?_, ?_⟩
    · rintro rfl
      simp [isTokenExpired, jsTruthy, ht]
    · rintro rfl
      simp [isTokenExpired, jsTruthy, ht]
    · rintro m rfl
      simp [isTokenExpired, jsTruthy, ht]

/-- Witness for C4: the amended specification evaluated at concrete
tokens and security-context outcomes. -/
theorem c4_witness :
    isTokenExpired none SecCtxOutcome.success = .ok true ∧
    isTokenExpired (some "tok") SecCtxOutcome.success = .ok false ∧
    isTokenExpired (some "tok") SecCtxOutcome.tokenExpiredError = .ok true ∧
    isTokenExpired (some "tok") (SecCtxOutcome.otherError "boom") = .error "boom" :=
  ⟨(c4_isTokenExpired_spec none SecCtxOutcome.success).1 (Or.inl rfl),
   ((c4_isTokenExpired_spec (some "tok") SecCtxOutcome.success).2 "tok" rfl
      (by decide)).1 rfl,
   ((c4_isTokenExpired_spec (some "tok") SecCtxOutcome.tokenExpiredError).2 "tok" rfl
      (by decide)).2.1 rfl,
   ((c4_isTokenExpired_spec (some "tok") (SecCtxOutcome.otherError "boom")).2 "tok" rfl
      (by decide)).2.2 "boom" rfl⟩

/-- C8 counterexample: a loaded configuration in which `CFDP_TARGET` is
present but empty still makes `run` throw the fatal configuration error,
whereas the claim promises the listener opens whenever the variable is
present. -/
theorem c8_counterexample :
    (fun k => if k = "CFDP_TARGET" then some "" else none) "CFDP_TARGET" = some "" ∧
    runStartup (fun k => if k = "CFDP_TARGET" then some "" else none) 8887
      = .error "Variable CFDP_TARGET not found. Run cfdp bind first" :=
  ⟨rfl, rfl⟩

/-- C8 (amended): if `CFDP_TARGET` is absent from the loaded configuration
or present with an empty value (both JS-falsy), `run` raises the fatal
configuration error before the listener is created; if it is present and
non-empty, startup succeeds and the listener opens on the given port. -/
theorem c8_runStartup_spec (env : String → Option String) (port : Nat) :
    ((env "CFDP_TARGET" = none ∨ env "CFDP_TARGET" = some "") →
      runStartup env port
        = .error "Variable CFDP_TARGET not found. Run cfdp bind first") ∧
    (∀ t, env "CFDP_TARGET" = some t → t ≠ "" →
      runStartup env port = .ok (t, port)) := by
  constructor
  · intro hcase
    rcases hcase with hc | hc <;> simp [runStartup, hc, jsTruthy]
  · intro t ht htne
    simp [runStartup, ht, jsTruthy, htne, jsStr]

/-- Witness for C8: concrete environments with the variable missing and
with a non-empty target. -/
theorem c8_witness :
    runStartup (fun _ => none) 8887
      = .error "Variable CFDP_TARGET not found. Run cfdp bind first" ∧
    runStartup (fun k => if k = "CFDP_TARGET" then some "https://backend.example.com" else none)
        8887 = .ok ("https://backend.example.com", 8887) :=
  ⟨(c8_runStartup_spec (fun _ => none) 8887).1 (Or.inl rfl),
   (c8_runStartup_spec
      (fun k => if k = "CFDP_TARGET" then some "https://backend.example.com" else none)
      8887).2 "https://backend.example.com" rfl (by decide)⟩

/-- The retry loop of `writeEnv`, run with fuel `n + 1` on a directory of
`n` files, returns the candidate name of least free index. -/
theorem findFreeName_main (names : List String) :
    ∃ k, k ≤ names.length ∧ candName k ∉ names ∧
      (∀ j, j < k → candName j ∈ names) ∧
      findFreeName names (names.length + 1) 0 = some (candName k) := by
  obtain ⟨i, hi, hfree⟩ := exists_free_candName names
  have hex : ∃ j, candName j ∉ names := ⟨i, hfree⟩
  have hkle : Nat.find hex ≤ names.length :=
    le_trans (Nat.find_min' hex hfree) hi
  refine ⟨Nat.find hex, hkle, Nat.find_spec hex, ?_, ?_⟩
  · intro j hj
    have h2 := Nat.find_min hex hj
    simpa using h2
  · exact findFreeName_eq names (names.length + 1) 0 (Nat.find hex)
      (Nat.find_spec hex) (Nat.zero_le _)
      (fun j _ hj => by simpa using Nat.find_min hex hj)
      (by omega)

/-- C5: `writeEnv` never overwrites.  It writes under ".env" when that name
is unused and otherwise under the first unused ".i.env" (i = 1, 2, ...);
the chosen name is not among the existing names, the write only appends a
new entry, and the contents looked up under every pre-existing name are
unchanged. -/
theorem c5_writeEnv_no_overwrite (env : String) (dir : List (String × String)) :
    ∃ name dir2, writeEnv env dir = some (name, dir2) ∧
      name ∉ dir.map Prod.fst ∧
      dir2 = dir ++ [(name, env)] ∧
      (∃ k, name = candName k ∧ candName k ∉ dir.map Prod.fst ∧
        (∀ j, j < k → candName j ∈ dir.map Prod.fst)) ∧
      (∀ n2, n2 ∈ dir.map Prod.fst → lookupKV dir2 n2 = lookupKV dir n2) := by
  obtain ⟨k, hkle, hfree, hmin, heq⟩ := findFreeName_main (dir.map Prod.fst)
  have hlen : (dir.map Prod.fst).length = dir.length := List.length_map _ _
  rw [hlen] at heq
  refine ⟨candName k, dir ++ [(candName k, env)], ?_, hfree, rfl, ⟨k, rfl, hfree, hmin⟩, ?_⟩
  · rw [writeEnv, heq]
  · intro n2 hn2
    have hne : candName k ≠ n2 := fun hc => hfree (hc ▸ hn2)
    rw [lookupKV_append, lookupKV_cons, if_neg hne, lookupKV_nil, Option.or_none]

/-- Witness for C5: in a directory already holding ".env" and ".1.env",
the write lands on ".2.env", appends it, and leaves both prior artifacts
readable with their old contents. -/
theorem c5_witness :
    writeEnv "NEW" [(".env", "A"), (".1.env", "B")]
      = some (".2.env", [(".env", "A"), (".1.env", "B"), (".2.env", "NEW")]) ∧
    lookupKV [(".env", "A"), (".1.env", "B"), (".2.env", "NEW")] ".env" = some "A" ∧
    lookupKV [(".env", "A"), (".1.env", "B"), (".2.env", "NEW")] ".1.env" = some "B" := by
  obtain ⟨name, dir2, hw, hnot, hdir2, hfirst, hpre⟩ :=
    c5_writeEnv_no_overwrite "NEW" [(".env", "A"), (".1.env", "B")]
  have hcomp : writeEnv "NEW" [(".env", "A"), (".1.env", "B")]
      = some (".2.env", [(".env", "A"), (".1.env", "B"), (".2.env", "NEW")]) := rfl
  rw [hcomp] at hw
  injection hw with hpair
  have hd : [(".env", "A"), (".1.env", "B"), (".2.env", "NEW")] = dir2 := by
    simpa using congrArg Prod.snd hpair
  refine ⟨hcomp, ?_, ?_⟩
  · have h2 := hpre ".env" (by decide)
    rw [← hd] at h2
    exact h2.trans rfl
  · have h2 := hpre ".1.env" (by decide)
    rw [← hd] at h2
    exact h2.trans rfl

/-- C10: `writeEnv` terminates on every finite directory state: the retry
loop, given fuel one more than the number of files, finds a free candidate
name of index at most the number of files, and the write succeeds. -/
theorem c10_writeEnv_terminates (env : String) (dir : List (String × String)) :
    ∃ k, k ≤ dir.length ∧
      findFreeName (dir.map Prod.fst) (dir.length + 1) 0 = some (candName k) ∧
      (writeEnv env dir).isSome = true := by
  obtain ⟨k, hkle, hfree, hmin, heq⟩ := findFreeName_main (dir.map Prod.fst)
  have hlen : (dir.map Prod.fst).length = dir.length := List.length_map _ _
  rw [hlen] at heq hkle
  refine ⟨k, hkle, heq, ?_⟩
  rw [writeEnv, heq]
  rfl

/-- C3 counterexample: an inbound request carrying an `Authorization`
header with the empty value (JS-falsy) is forwarded without any
`x-approuter-authorization` header, whereas the claim requires that header
to carry the inbound value for every request that has an Authorization
header. -/
theorem c3_counterexample :
    (handleRequest (some "cached")
        { host := "crm.local", pathname := "/orders", search := "?id=5",
          authorization := some "", xApprouterAuthorization := none }
        { secCtx := SecCtxOutcome.success, fetchResult := Except.ok "t" }).map
      (fun h => h.forwarded.xApprouterAuthorization) = Except.ok none ∧
    (Except.ok (none : Option String) : Except String (Option String))
      ≠ Except.ok (some "") := by
  refine ⟨rfl, ?_⟩
  intro h
  simp at h

/-- One-step unfolding of `handleRequest` with its lets inlined. -/
theorem handleRequest_eq (token0 : Option String) (req : Request) (env : ReqEnv) :
    handleRequest token0 req env =
      match isTokenExpired token0 env.secCtx with
      | .error e => .error e
      | .ok expired =>
        match (if expired then env.fetchResult.map some else .ok token0) with
        | .error e => .error e
        | .ok token1 =>
          .ok { forwarded :=
                  { destination := firstLabel req.host
                    pathname := posixJoin3 "/proxy" (firstLabel req.host) req.pathname
                    search := req.search
                    authorization := "Bearer " ++ jsStr token1
                    xApprouterAuthorization :=
                      if jsTruthy req.authorization then req.authorization
                      else req.xApprouterAuthorization }
                token := token1
                fetched := expired } := rfl

/-- C3 (amended): for a successfully handled request whose inbound
`Authorization` value X is non-empty, the forwarded request carries
`x-approuter-authorization: X` and `Authorization: Bearer <cached token>`;
with no inbound `Authorization` header the `x-approuter-authorization`
header is left exactly as it came in (none is added), and the
`Authorization` header is still `Bearer <cached token>`.  The forwarded
`Authorization` value never depends on X: any two requests differing only
in the inbound `Authorization` header are forwarded with the same
`Authorization`. -/
theorem c3_header_transformation (token0 : Option String) (req : Request)
    (env : ReqEnv) (h : HandleOut)
    (hok : handleRequest token0 req env = .ok h) :
    (∀ X, req.authorization = some X → X ≠ "" →
      h.forwarded.xApprouterAuthorization = some X) ∧
    (req.authorization = none →
      h.forwarded.xApprouterAuthorization = req.xApprouterAuthorization) ∧
    h.forwarded.authorization = "Bearer " ++ jsStr h.token ∧
    (∀ auth2 h2,
      handleRequest token0 { req with authorization := auth2 } env = .ok h2 →
      h2.forwarded.authorization = h.forwarded.authorization) := by
  cases hexp : isTokenExpired token0 env.secCtx with
  | error e =>
    rw [handleRequest_eq, hexp] at hok
    exact absurd hok (by simp)
  | ok expired =>
    cases hfetch : (if expired then env.fetchResult.map some else Except.ok token0) with
    | error e =>
      rw [handleRequest_eq, hexp] at hok
      simp only [hfetch] at hok
      exact absurd hok (by simp)
    | ok token1 =>
      rw [handleRequest_eq, hexp] at hok
      simp only [hfetch] at hok
      have hh := (Except.ok.inj hok).symm
      subst hh
      refine ⟨?_, ?_, rfl, ?_⟩
      · intro X hX hXne
        simp [hX, jsTruthy, hXne]
      · intro hX
        simp [hX, jsTruthy]
      · intro auth2 h2 hok2
        rw [handleRequest_eq, hexp] at hok2
        simp only [hfetch] at hok2
        have hh2 := (Except.ok.inj hok2).symm
        subst hh2
        rfl

/-- Witness for C3: a request with `Authorization: Bearer X` against a
valid cached token is forwarded with the original value relabelled and the
shared token as the upstream Authorization. -/
theorem c3_witness :
    ∃ h : HandleOut,
      handleRequest (some "cachedTok")
        { host := "crm.local", pathname := "/orders", search := "?id=5",
          authorization := some "Bearer X", xApprouterAuthorization := none }
        { secCtx := SecCtxOutcome.success, fetchResult := Except.ok "t" } = .ok h ∧
      h.forwarded.xApprouterAuthorization = some "Bearer X" ∧
      h.forwarded.authorization = "Bearer " ++ jsStr h.token ∧
      h.token = some "cachedTok" := by
  have hres : handleRequest (some "cachedTok")
      { host := "crm.local", pathname := "/orders", search := "?id=5",
        authorization := some "Bearer X", xApprouterAuthorization := none }
      { secCtx := SecCtxOutcome.success, fetchResult := Except.ok "t" }
    = .ok { forwarded :=
              { destination := "crm", pathname := "/proxy/crm/orders",
                search := "?id=5", authorization := "Bearer cachedTok",
                xApprouterAuthorization := some "Bearer X" },
            token := some "cachedTok", fetched := false } := rfl
  obtain ⟨hx, _, hauth, _⟩ := c3_header_transformation (some "cachedTok") _ _ _ hres
  exact ⟨_, hres, hx "Bearer X" rfl (by decide), hauth, rfl⟩

/-- C1 counterexample: with host "crm.local" (destination label "crm") and
inbound path "//x" (an empty path segment, which a WHATWG URL pathname may
contain), the rewrite produces "/proxy/crm/x" — `path.posix.join`
normalization collapses the duplicate slash — not the claimed
"/proxy/" ++ "crm" ++ "//x" = "/proxy/crm//x". -/
theorem c1_counterexample :
    firstLabel "crm.local" = "crm" ∧
    (handleRequest (some "cached")
        { host := "crm.local", pathname := "//x", search := "",
          authorization := none, xApprouterAuthorization := none }
        { secCtx := SecCtxOutcome.success, fetchResult := Except.ok "t" }).map
      (fun h => h.forwarded.pathname) = Except.ok "/proxy/crm/x" ∧
    ("/proxy/crm/x" : String) ≠ "/proxy/" ++ "crm" ++ "//x" := by
  refine ⟨rfl, rfl, ?_⟩
  decide

/-- C1 (amended): for a request whose Host header's first label is an
ordinary name (non-empty, slash-free, not a dot segment) and whose inbound
pathname is "/" followed by ordinary segments (optionally with a trailing
slash), the forwarded upstream pathname is exactly
"/proxy/" ++ destination ++ pathname, and the query string is preserved
untouched.  (Paths with empty or dot segments are instead normalized by
`path.posix.join`, as the counterexample shows.) -/
theorem c1_path_rewrite (token0 : Option String) (req : Request) (env : ReqEnv)
    (segs : List String) (trail : Bool)
    (hgood : ∀ s ∈ segs, goodSeg s = true)
    (htrail : trail = true → segs ≠ [])
    (hpath : req.pathname = "/" ++ joinPath segs ++ (if trail then "/" else ""))
    (hdest : goodSeg (firstLabel req.host) = true) :
    ∀ h, handleRequest token0 req env = .ok h →
      h.forwarded.pathname = "/proxy/" ++ firstLabel req.host ++ req.pathname ∧
      h.forwarded.search = req.search := by
  intro h hok
  have hpj := posixJoin3_good (firstLabel req.host) segs trail hdest hgood htrail
  cases hexp : isTokenExpired token0 env.secCtx with
  | error e =>
    rw [handleRequest_eq, hexp] at hok
    exact absurd hok (by simp)
  | ok expired =>
    cases hfetch : (if expired then env.fetchResult.map some else Except.ok token0) with
    | error e =>
      rw [handleRequest_eq, hexp] at hok
      simp only [hfetch] at hok
      exact absurd hok (by simp)
    | ok token1 =>
      rw [handleRequest_eq, hexp] at hok
      simp only [hfetch] at hok
      have hh := (Except.ok.inj hok).symm
      subst hh
      refine ⟨?_, rfl⟩
      show posixJoin3 "/proxy" (firstLabel req.host) req.pathname = _
      rw [hpath, hpj]

/-- Witness for C1: the spec's own example — inbound path "/orders?id=5"
with host "crm.local" — yields upstream path "/proxy/crm/orders" with the
query "?id=5" preserved. -/
theorem c1_witness :
    ∃ h : HandleOut,
      handleRequest (some "cached")
        { host := "crm.local", pathname := "/orders", search := "?id=5",
          authorization := none, xApprouterAuthorization := none }
        { secCtx := SecCtxOutcome.success, fetchResult := Except.ok "t" } = .ok h ∧
      h.forwarded.pathname = "/proxy/" ++ "crm" ++ "/orders" ∧
      h.forwarded.search = "?id=5" := by
  have hres : handleRequest (some "cached")
      { host := "crm.local", pathname := "/orders", search := "?id=5",
        authorization := none, xApprouterAuthorization := none }
      { secCtx := SecCtxOutcome.success, fetchResult := Except.ok "t" }
    = .ok { forwarded :=
              { destination := "crm", pathname := "/proxy/crm/orders",
                search := "?id=5", authorization := "Bearer cached",
                xApprouterAuthorization := none },
            token := some "cached", fetched := false } := rfl
  have h2 := c1_path_rewrite (some "cached")
      { host := "crm.local", pathname := "/orders", search := "?id=5",
        authorization := none, xApprouterAuthorization := none }
      { secCtx := SecCtxOutcome.success, fetchResult := Except.ok "t" }
      ["orders"] false
      (by decide) (by simp) (by decide) (by decide)
      _ hres
  exact ⟨_, hres, h2.1, h2.2⟩

theorem isTokenExpired_ok_false {token : Option String} {ctx : SecCtxOutcome}
    (h : isTokenExpired token ctx = .ok false) :
    ∃ t, token = some t ∧ t ≠ "" := by
  cases token with
  | none => exact absurd h (by simp [isTokenExpired, jsTruthy])
  | some t =>
    refine ⟨t, rfl, ?_⟩
    intro ht
    subst ht
    exact absurd h (by simp [isTokenExpired, jsTruthy])

theorem nextToken_ok {tok : Option String} {r : Request} {e : ReqEnv} {h : HandleOut}
    (hres : handleRequest tok r e = .ok h) : nextToken tok r e = h.token := by
  unfold nextToken
  rw [hres]

theorem nextToken_error {tok : Option String} {r : Request} {e : ReqEnv} {e2 : String}
    (hres : handleRequest tok r e = .error e2) : nextToken tok r e = tok := by
  unfold nextToken
  rw [hres]

/-- C2: in any run of the server loop, for the request at index `i`: if
the introspection of the cached token in effect reports expired (including
the null token at startup), a fetch happens and, when it succeeds, its
result becomes the shared cached token and is the bearer token with which
that request is forwarded (a failed fetch aborts the request leaving the
cache unchanged); if it reports not expired, no fetch happens and the
previously cached token is reused verbatim, the cache unchanged. -/
theorem c2_token_cache (t0 : Option String) (reqs : List (Request × ReqEnv))
    (i : Nat) (h : i < reqs.length) :
    ∃ h2 : i < (processRequests t0 reqs).length,
      (isTokenExpired ((processRequests t0 reqs).get ⟨i, h2⟩).tokenBefore
          (reqs.get ⟨i, h⟩).2.secCtx = .ok true →
        (∀ tk, (reqs.get ⟨i, h⟩).2.fetchResult = .ok tk →
          ∃ out, ((processRequests t0 reqs).get ⟨i, h2⟩).result = .ok out ∧
            out.fetched = true ∧ out.token = some tk ∧
            out.forwarded.authorization = "Bearer " ++ tk ∧
            ((processRequests t0 reqs).get ⟨i, h2⟩).tokenAfter = some tk) ∧
        (∀ e, (reqs.get ⟨i, h⟩).2.fetchResult = .error e →
          ((processRequests t0 reqs).get ⟨i, h2⟩).result = .error e ∧
          ((processRequests t0 reqs).get ⟨i, h2⟩).tokenAfter
            = ((processRequests t0 reqs).get ⟨i, h2⟩).tokenBefore)) ∧
      (isTokenExpired ((processRequests t0 reqs).get ⟨i, h2⟩).tokenBefore
          (reqs.get ⟨i, h⟩).2.secCtx = .ok false →
        ∃ out, ((processRequests t0 reqs).get ⟨i, h2⟩).result = .ok out ∧
          out.fetched = false ∧
          out.token = ((processRequests t0 reqs).get ⟨i, h2⟩).tokenBefore ∧
          ((processRequests t0 reqs).get ⟨i, h2⟩).tokenAfter
            = ((processRequests t0 reqs).get ⟨i, h2⟩).tokenBefore ∧
          ∃ t, ((processRequests t0 reqs).get ⟨i, h2⟩).tokenBefore = some t ∧
            out.forwarded.authorization = "Bearer " ++ t) := by
  obtain ⟨h2, hget⟩ := processRequests_get reqs t0 i h
  refine ⟨h2, ?_, ?_⟩ <;> rw [hget] <;> dsimp only <;> intro hexp
  · constructor
    · intro tk htk
      have h3 : handleRequest (tokBefore t0 reqs i) (reqs.get ⟨i, h⟩).1 (reqs.get ⟨i, h⟩).2
          = .ok { forwarded :=
                    { destination := firstLabel (reqs.get ⟨i, h⟩).1.host
                      pathname := posixJoin3 "/proxy"
                        (firstLabel (reqs.get ⟨i, h⟩).1.host) (reqs.get ⟨i, h⟩).1.pathname
                      search := (reqs.get ⟨i, h⟩).1.search
                      authorization := "Bearer " ++ jsStr (some tk)
                      xApprouterAuthorization :=
                        if jsTruthy (reqs.get ⟨i, h⟩).1.authorization
                        then (reqs.get ⟨i, h⟩).1.authorization
                        else (reqs.get ⟨i, h⟩).1.xApprouterAuthorization }
                  token := some tk
                  fetched := true } := by
        rw [handleRequest_eq, hexp]
        simp only [List.get_eq_getElem] at htk
        simp [htk, Except.map]
      refine ⟨_, h3, rfl, rfl, ?_, ?_⟩
      · simp [jsStr]
      · rw [nextToken_ok h3]
    · intro e he
      have h3 : handleRequest (tokBefore t0 reqs i) (reqs.get ⟨i, h⟩).1 (reqs.get ⟨i, h⟩).2
          = .error e := by
        rw [handleRequest_eq, hexp]
        simp only [List.get_eq_getElem] at he
        simp [he, Except.map]
      exact ⟨h3, nextToken_error h3⟩
  · obtain ⟨t, ht, htne⟩ := isTokenExpired_ok_false hexp
    have h3 : handleRequest (tokBefore t0 reqs i) (reqs.get ⟨i, h⟩).1 (reqs.get ⟨i, h⟩).2
        = .ok { forwarded :=
                  { destination := firstLabel (reqs.get ⟨i, h⟩).1.host
                    pathname := posixJoin3 "/proxy"
                      (firstLabel (reqs.get ⟨i, h⟩).1.host) (reqs.get ⟨i, h⟩).1.pathname
                    search := (reqs.get ⟨i, h⟩).1.search
                    authorization := "Bearer " ++ jsStr (tokBefore t0 reqs i)
                    xApprouterAuthorization :=
                      if jsTruthy (reqs.get ⟨i, h⟩).1.authorization
                      then (reqs.get ⟨i, h⟩).1.authorization
                      else (reqs.get ⟨i, h⟩).1.xApprouterAuthorization }
                token := tokBefore t0 reqs i
                fetched := false } := by
      rw [handleRequest_eq, hexp]
      simp
    refine ⟨_, h3, rfl, rfl, nextToken_ok h3, t, ht, ?_⟩
    show "Bearer " ++ jsStr (tokBefore t0 reqs i) = "Bearer " ++ t
    rw [ht]
    rfl

/-- Witness for C2: a one-request run starting with no cached token — the
introspection of the null token reports expired and the fetched token
becomes the cache and the forwarded bearer token. -/
theorem c2_witness :
    ∃ h2 : 0 < (processRequests none
        [({ host := "a.local", pathname := "/p", search := "",
            authorization := none, xApprouterAuthorization := none },
          { secCtx := SecCtxOutcome.success, fetchResult := Except.ok "T1" })]).length,
      ∃ out, ((processRequests none
        [({ host := "a.local", pathname := "/p", search := "",
            authorization := none, xApprouterAuthorization := none },
          { secCtx := SecCtxOutcome.success, fetchResult := Except.ok "T1" })]).get
            ⟨0, h2⟩).result = .ok out ∧
        out.fetched = true ∧ out.token = some "T1" ∧
        out.forwarded.authorization = "Bearer " ++ "T1" := by
  obtain ⟨h2, hcase, _⟩ := c2_token_cache none
    [({ host := "a.local", pathname := "/p", search := "",
        authorization := none, xApprouterAuthorization := none },
      { secCtx := SecCtxOutcome.success, fetchResult := Except.ok "T1" })]
    0 (by decide)
  obtain ⟨out, hres, hf, htok, hauth, _⟩ := (hcase (by rfl)).1 "T1" rfl
  exact ⟨h2, out, hres, hf, htok, hauth⟩

/-- C7 (code bug): the code evaluated at the failing inputs.  A request
whose security-context call fails with an error other than
`TokenExpiredError`, and likewise one whose token fetch rejects, makes the
handler itself reject with that error — `handleRequest` propagates the raw
error, and nothing in the source catches it.  In the source the handler is
an `async` callback passed to `createServer`, whose returned promise is
discarded by `http.Server`, and the repository installs no rejection or
exception handler that could run at request time; under the default
unhandled-rejection policy of the Node versions the repository's tooling
requires (fatal since Node 15), the rejection escalates to an uncaught
exception that terminates the process together with its listener.  The
specification's per-request isolation ("only that request is aborted; the
listener keeps running") states the clear intent, and the missing
try/catch around the awaits in the handler is the slip. -/
theorem c7_token_error_uncaught :
    handleRequest (some "cachedTok")
      { host := "a.local", pathname := "/p", search := "",
        authorization := none, xApprouterAuthorization := none }
      { secCtx := SecCtxOutcome.otherError "boom", fetchResult := Except.ok "T1" }
      = .error "boom" ∧
    handleRequest none
      { host := "b.local", pathname := "/q", search := "",
        authorization := none, xApprouterAuthorization := none }
      { secCtx := SecCtxOutcome.success, fetchResult := Except.error "fetch failed" }
      = .error "fetch failed" := ⟨rfl, rfl⟩

/-- C9: `loadFiles` loads exactly the files whose names match the `.env`
pattern — ".env" itself or "." followed by one or more digits and ".env" —
and, because `dotenv.config` never overwrites an already-set key, the value
in effect for any key after loading is the pre-existing environment value
if any, and otherwise the value from the first loaded file that defines it
(files in directory-listing order, first definition inside a file wins). -/
theorem c9_loadFiles_pattern_first_wins :
    (∀ s : String, isEnvFileName s = true ↔
      (s = ".env" ∨ ∃ ds : List Char, ds ≠ [] ∧ (∀ c ∈ ds, isDigitChar c = true) ∧
        s.data = '.' :: (ds ++ ['.', 'e', 'n', 'v']))) ∧
    (∀ (files : List String) (parse : String → List (String × String))
        (env : List (String × String)) (k : String),
      lookupKV (loadFiles files parse env) k
        = (lookupKV env k).or
            ((files.filter isEnvFileName).findSome? (fun f => lookupKV (parse f) k))) := by
  constructor
  · intro s
    constructor
    · intro h
      rw [isEnvFileName] at h
      cases hdata : s.data with
      | nil =>
        rw [hdata, matchesEnvPattern] at h
        exact absurd h (by simp)
      | cons c rest =>
        rw [hdata, matchesEnvPattern] at h
        obtain ⟨hc, hrest⟩ := Bool.and_eq_true_iff.mp h
        have hc2 : c = '.' := of_decide_eq_true hc
        subst hc2
        rcases Bool.or_eq_true_iff.mp hrest with henv | hnum
        · left
          apply String.ext
          rw [hdata, of_decide_eq_true henv]
        · right
          obtain ⟨hne, hdrop⟩ := Bool.and_eq_true_iff.mp hnum
          refine ⟨rest.takeWhile isDigitChar, of_decide_eq_true hne, ?_, ?_⟩
          · intro c hc
            exact List.mem_takeWhile_imp hc
          · have hsplit := List.takeWhile_append_dropWhile (p := isDigitChar) (l := rest)
            have hdw : rest.drop (rest.takeWhile isDigitChar).length
                = rest.dropWhile isDigitChar := by
              nth_rewrite 2 [← hsplit]
              rw [List.drop_left]
            have h2 : rest.dropWhile isDigitChar = ['.', 'e', 'n', 'v'] := by
              rw [← hdw]
              exact of_decide_eq_true hdrop
            rw [h2] at hsplit
            conv_lhs => rw [← hsplit]
    · intro h
      rcases h with h | ⟨ds, hne, hdig, hdata⟩
      · subst h
        rfl
      · rw [isEnvFileName, hdata, matchesEnvPattern]
        apply Bool.and_eq_true_iff.mpr
        refine ⟨by simp, ?_⟩
        apply Bool.or_eq_true_iff.mpr
        right
        have h0 : List.takeWhile isDigitChar ['.', 'e', 'n', 'v'] = [] := by decide
        have htw : (ds ++ ['.', 'e', 'n', 'v']).takeWhile isDigitChar = ds := by
          rw [List.takeWhile_append_of_pos hdig, h0, List.append_nil]
        rw [htw]
        apply Bool.and_eq_true_iff.mpr
        refine ⟨by simpa using hne, ?_⟩
        rw [List.drop_left]
        simp
  · intro files parse env k
    exact lookupKV_foldl_config parse k (files.filter isEnvFileName) env

/-- Witness for C9: the filter accepts ".env", ".1.env" and ".12.env" but
rejects "x.env" and "..env"; with two artifacts both defining KEY, the
first file's value wins, and a pre-set environment key is never
overwritten. -/
theorem c9_witness :
    isEnvFileName ".env" = true ∧ isEnvFileName ".1.env" = true ∧
    isEnvFileName ".12.env" = true ∧ isEnvFileName "x.env" = false ∧
    isEnvFileName "..env" = false ∧
    lookupKV (loadFiles [".env", ".1.env"]
        (fun f => if f = ".env" then [("KEY", "first")] else [("KEY", "second")])
        []) "KEY" = some "first" ∧
    lookupKV (loadFiles [".env"]
        (fun _ => [("KEY", "fromFile")])
        [("KEY", "preset")]) "KEY" = some "preset" := by
  have hiff := c9_loadFiles_pattern_first_wins.1
  have hfold := c9_loadFiles_pattern_first_wins.2
  refine ⟨?_, ?_, ?_, ?_, ?_, ?_, ?_⟩
  · exact (hiff ".env").mpr (Or.inl rfl)
  · exact (hiff ".1.env").mpr (Or.inr ⟨['1'], by decide, by decide, by decide⟩)
  · exact (hiff ".12.env").mpr (Or.inr ⟨['1', '2'], by decide, by decide, by decide⟩)
  · decide
  · decide
  · rw [hfold [".env", ".1.env"]
      (fun f => if f = ".env" then [("KEY", "first")] else [("KEY", "second")]) [] "KEY"]
    rfl
  · rw [hfold [".env"] (fun _ => [("KEY", "fromFile")]) [("KEY", "preset")] "KEY"]
    rfl

theorem buildEnv_ok_target {route : String} {auth : AuthContext} {o : BindOracle}
    {u d t : String} {tr : List ExtCall}
    (h : buildEnv route auth o u d = (.ok t, tr)) : t = rewriteTarget route := by
  unfold buildEnv at h
  cases hh : extractHost route with
  | none =>
    rw [hh] at h
    simp at h
  | some host =>
    rw [hh] at h
    cases h1 : o.appGuid with
    | error e => rw [h1] at h; simp at h
    | ok g =>
      rw [h1] at h
      cases h2 : o.uaaCredentials with
      | error e => rw [h2] at h; simp at h
      | ok c1 =>
        rw [h2] at h
        cases h3 : o.destCredentials with
        | error e => rw [h3] at h; simp at h
        | ok c2 =>
          rw [h3] at h
          cases h4 : o.destAccessToken with
          | error e => rw [h4] at h; simp at h
          | ok a1 =>
            rw [h4] at h
            cases h5 : o.destinationNames with
            | error e => rw [h5] at h; simp at h
            | ok ns =>
              rw [h5] at h
              simp at h
              exact h.1.symm

/-- C6: for every route matching the `.cfapps.<region>.hana.ondemand.com`
pattern, the derived platform API URL is the fixed function
`https://api.cf.<region>.hana.ondemand.com` of the route alone, and every
successful bind run — whatever the external-call oracle answers — emits
exactly that API URL and the Target Base obtained by rewriting the route
to `https://<host>`; for every route not matching the pattern, bind fails
with the format error and its external-call trace is empty (it fails
before any network call). -/
theorem c6_bind_route (route : String) (o : BindOracle) (uaaI destI : String) :
    (∀ region, findRegion route.data = some region →
      getCloudFoundryURL route "api"
        = .ok ("https://api.cf." ++ String.mk region ++ ".hana.ondemand.com") ∧
      (∀ out, (bindCommand route o uaaI destI).1 = .ok out →
        out.apiURL = "https://api.cf." ++ String.mk region ++ ".hana.ondemand.com" ∧
        out.target = rewriteTarget route)) ∧
    (findRegion route.data = none →
      bindCommand route o uaaI destI = (.error ("Invalid route format: " ++ route), [])) := by
  constructor
  · intro region hfind
    have h1 : getCloudFoundryURL route "api"
        = .ok ("https://" ++ "api" ++ ".cf." ++ String.mk region ++ ".hana.ondemand.com") := by
      unfold getCloudFoundryURL
      rw [hfind]
    have h2 : ("https://" ++ "api" ++ ".cf." : String) = "https://api.cf." := by
      apply String.ext
      simp
    have hgc : getCloudFoundryURL route "api"
        = .ok ("https://api.cf." ++ String.mk region ++ ".hana.ondemand.com") := by
      rw [h1, h2]
    refine ⟨hgc, ?_⟩
    intro out hout
    unfold bindCommand at hout
    rw [hgc] at hout
    dsimp only at hout
    rcases hauth : authenticate route o with ⟨res, tr⟩
    rw [hauth] at hout
    cases res with
    | error e =>
      dsimp only at hout
      simp at hout
    | ok auth =>
      dsimp only at hout
      rcases hbuild : buildEnv route auth o uaaI destI with ⟨res2, tr2⟩
      rw [hbuild] at hout
      cases res2 with
      | error e =>
        dsimp only at hout
        simp at hout
      | ok t =>
        dsimp only at hout
        have hh := Except.ok.inj hout
        rw [← hh]
        exact ⟨rfl, buildEnv_ok_target hbuild⟩
  · intro hfind
    have hgc : getCloudFoundryURL route "api"
        = .error ("Invalid route format: " ++ route) := by
      unfold getCloudFoundryURL
      rw [hfind]
    unfold bindCommand
    rw [hgc]

/-- Witness for C6: a route of the documented shape yields the region
"eu10" API URL; a malformed route makes bind fail with the format error
and an empty external-call trace; a successful bind against an
all-successful oracle emits the rewritten Target Base. -/
theorem c6_witness :
    getCloudFoundryURL "cf-destination-proxy.cfapps.eu10.hana.ondemand.com" "api"
      = .ok ("https://api.cf." ++ String.mk "eu10".data ++ ".hana.ondemand.com") ∧
    bindCommand "badroute"
        { oauthToken := .ok "bearer abc", ssoLogin := .ok (),
          oauthTokenAfterLogin := .ok "bearer abc", appGuid := .ok "g",
          uaaCredentials := .ok "cu", destCredentials := .ok "cd",
          destAccessToken := .ok "at", destinationNames := .ok ["d1"] }
        "uaa" "dest"
      = (.error ("Invalid route format: " ++ "badroute"), []) ∧
    (⟨"https://api.cf.eu10.hana.ondemand.com",
      "https://cf-destination-proxy.cfapps.eu10.hana.ondemand.com"⟩ : BindOut).target
      = rewriteTarget "cf-destination-proxy.cfapps.eu10.hana.ondemand.com" := by
  have hA := c6_bind_route "cf-destination-proxy.cfapps.eu10.hana.ondemand.com"
      { oauthToken := .ok "bearer abc", ssoLogin := .ok (),
        oauthTokenAfterLogin := .ok "bearer abc", appGuid := .ok "g",
        uaaCredentials := .ok "cu", destCredentials := .ok "cd",
        destAccessToken := .ok "at", destinationNames := .ok ["d1"] }
      "uaa" "dest"
  have hB := c6_bind_route "badroute"
      { oauthToken := .ok "bearer abc", ssoLogin := .ok (),
        oauthTokenAfterLogin := .ok "bearer abc", appGuid := .ok "g",
        uaaCredentials := .ok "cu", destCredentials := .ok "cd",
        destAccessToken := .ok "at", destinationNames := .ok ["d1"] }
      "uaa" "dest"
  obtain ⟨hapi, hok⟩ := hA.1 "eu10".data rfl
  refine ⟨hapi, hB.2 rfl, ?_⟩
  exact (hok ⟨"https://api.cf.eu10.hana.ondemand.com",
      "https://cf-destination-proxy.cfapps.eu10.hana.ondemand.com"⟩ (by rfl)).2
